import Mathlib

/-
Verification of the Ralphie agent (project-ralphie): a shallow embedding of
the agent control loop, native tool dispatch, execution sandbox, task router
and context summarizer, with theorems checking the stated design properties
against the code.

Sources embedded:
- the tool handler handleNativeTool (variant with write_file append support,
  and the variant that always overwrites);
- the execution sandbox executeSegment (timestamped temp file, 60 s timeout)
  and the original index.js variant (fixed temp.js, no timeout);
- the outer control-loop iteration of the code-emission loop;
- the summarize step and the router classification.

Strings are modelled as Lean String / List Char; JavaScript string methods
(includes, split, join, trim, toLowerCase, slice, the || operator on strings)
are embedded explicitly below.
-/

namespace Ralphie

/-- Embeds JavaScript String.prototype.includes: true when pat occurs as a
contiguous sublist of l (the empty pattern occurs in every list). -/
def listIncludes (pat : List Char) : List Char → Bool
  | [] => pat.isEmpty
  | c :: t => pat.isPrefixOf (c :: t) || listIncludes pat t

/-- Number of positions of l at which pat occurs (pat is a prefix of the
suffix of l starting there). "pat occurs exactly once" is posCount pat l = 1. -/
def posCount (pat : List Char) : List Char → Nat
  | [] => if pat.isEmpty then 1 else 0
  | c :: t => (if pat.isPrefixOf (c :: t) then 1 else 0) + posCount pat t

/-- Fuelled left-to-right non-overlapping replacement scan. With fuel at least
the length of the list the result is fuel-independent (raGo_fuel). -/
def raGo (pat rep : List Char) : Nat → List Char → List Char
  | _, [] => []
  | 0, l => l
  | fuel + 1, c :: t =>
    if pat ≠ [] ∧ pat.isPrefixOf (c :: t) then
      rep ++ raGo pat rep fuel ((c :: t).drop pat.length)
    else
      c :: raGo pat rep fuel t

/-- Replace every literal occurrence of pat in l by rep, scanning left to
right without overlap: the meaning of "replaces all literal occurrences", and
the semantics of JavaScript data.split(pat).join(rep) for nonempty pat
(proved below in intercalate_jsSplitGo). -/
def replaceAll (pat rep l : List Char) : List Char := raGo pat rep l.length l

/-- Fuelled scan embedding JavaScript String.prototype.split with a nonempty
separator: the list of segments of l between occurrences of sep. -/
def jsSplitGoF (sep : List Char) : Nat → List Char → List (List Char)
  | _, [] => [[]]
  | 0, l => [l]
  | fuel + 1, c :: t =>
    if sep ≠ [] ∧ sep.isPrefixOf (c :: t) then
      [] :: jsSplitGoF sep fuel ((c :: t).drop sep.length)
    else
      match jsSplitGoF sep fuel t with
      | [] => [[c]]
      | seg :: rest => (c :: seg) :: rest

/-- JavaScript split with a nonempty separator (fuel instantiated). -/
def jsSplitGo (sep l : List Char) : List (List Char) := jsSplitGoF sep l.length l

/-- Embeds JavaScript String.prototype.split: an empty separator splits the
string into its individual characters, otherwise segments between
occurrences of sep. -/
def jsSplit (sep l : List Char) : List (List Char) :=
  if sep.isEmpty then l.map (fun c => [c]) else jsSplitGo sep l

/-- Embeds data.includes(pat) on Lean strings. -/
def strIncludes (s pat : String) : Bool := listIncludes pat.data s.data

/-- Embeds data.split(sep).join(rep) from the search_and_replace handler. -/
def jsSplitJoinStr (data sep rep : String) : String :=
  ⟨List.intercalate rep.data (jsSplit sep.data data.data)⟩

/-- Embeds String.prototype.toLowerCase (code-point-wise lowering). -/
def jsToLower (s : String) : String := ⟨s.data.map Char.toLower⟩

/-- The whitespace class trimmed by String.prototype.trim (the characters the
agent responses actually contain). -/
def jsWhitespace (c : Char) : Bool :=
  c == ' ' || c == '\t' || c == '\n' || c == '\r'

/-- Embeds String.prototype.trim: strip whitespace from both ends. -/
def jsTrim (s : String) : String :=
  ⟨((s.data.dropWhile jsWhitespace).reverse.dropWhile jsWhitespace).reverse⟩

/-- Embeds the JavaScript || operator on strings: the empty string is falsy. -/
def jsOr (a b : String) : String := if a = "" then b else a

/-- Embeds s.slice(-n) for a nonnegative n: the trailing n characters (the
whole string when n = 0, since JavaScript -0 is 0 and s.slice(0) is s). -/
def jsSliceNeg (n : Nat) (s : String) : String :=
  if n = 0 then s else ⟨s.data.drop (s.data.length - n)⟩

/- Fuel independence and equation lemmas for the fuelled scans. -/

theorem raGo_fuel (pat rep : List Char) :
    ∀ f₁ f₂ l, l.length ≤ f₁ → l.length ≤ f₂ →
      raGo pat rep f₁ l = raGo pat rep f₂ l := by
  intro f₁
  induction f₁ with
  | zero =>
    intro f₂ l h₁ _
    have : l = [] := List.eq_nil_of_length_eq_zero (Nat.le_zero.mp h₁)
    subst this
    cases f₂ <;> rfl
  | succ f ih =>
    intro f₂ l h₁ h₂
    match l with
    | [] => cases f₂ <;> rfl
    | c :: t =>
      match f₂ with
      | 0 => simp at h₂
      | f₂' + 1 =>
        show (if pat ≠ [] ∧ pat.isPrefixOf (c :: t) then
                rep ++ raGo pat rep f ((c :: t).drop pat.length)
              else c :: raGo pat rep f t) =
             (if pat ≠ [] ∧ pat.isPrefixOf (c :: t) then
                rep ++ raGo pat rep f₂' ((c :: t).drop pat.length)
              else c :: raGo pat rep f₂' t)
        by_cases hp : pat ≠ [] ∧ pat.isPrefixOf (c :: t)
        · have hlen : pat.length ≥ 1 := List.length_pos.mpr hp.1
          have hd : ((c :: t).drop pat.length).length ≤ t.length := by
            simp only [List.length_drop, List.length_cons]
            omega
          simp only [if_pos hp]
          have := ih f₂' ((c :: t).drop pat.length)
            (le_trans hd (Nat.le_of_succ_le_succ h₁))
            (le_trans hd (Nat.le_of_succ_le_succ h₂))
          rw [this]
        · simp only [if_neg hp]
          have := ih f₂' t (Nat.le_of_succ_le_succ h₁) (Nat.le_of_succ_le_succ h₂)
          rw [this]

theorem replaceAll_nil (pat rep : List Char) : replaceAll pat rep [] = [] := rfl

theorem replaceAll_cons (pat rep : List Char) (c : Char) (t : List Char) :
    replaceAll pat rep (c :: t) =
      if pat ≠ [] ∧ pat.isPrefixOf (c :: t) then
        rep ++ replaceAll pat rep ((c :: t).drop pat.length)
      else c :: replaceAll pat rep t := by
  show (if pat ≠ [] ∧ pat.isPrefixOf (c :: t) then
          rep ++ raGo pat rep t.length ((c :: t).drop pat.length)
        else c :: raGo pat rep t.length t) = _
  by_cases hp : pat ≠ [] ∧ pat.isPrefixOf (c :: t)
  · have hlen : pat.length ≥ 1 := List.length_pos.mpr hp.1
    have hd : ((c :: t).drop pat.length).length ≤ t.length := by
      simp only [List.length_drop, List.length_cons]
      omega
    simp only [if_pos hp]
    congr 1
    exact raGo_fuel pat rep t.length ((c :: t).drop pat.length).length _ hd le_rfl
  · simp only [if_neg hp]
    rfl

theorem jsSplitGoF_fuel (sep : List Char) :
    ∀ f₁ f₂ l, l.length ≤ f₁ → l.length ≤ f₂ →
      jsSplitGoF sep f₁ l = jsSplitGoF sep f₂ l := by
  intro f₁
  induction f₁ with
  | zero =>
    intro f₂ l h₁ _
    have : l = [] := List.eq_nil_of_length_eq_zero (Nat.le_zero.mp h₁)
    subst this
    cases f₂ <;> rfl
  | succ f ih =>
    intro f₂ l h₁ h₂
    match l with
    | [] => cases f₂ <;> rfl
    | c :: t =>
      match f₂ with
      | 0 => simp at h₂
      | f₂' + 1 =>
        show (if sep ≠ [] ∧ sep.isPrefixOf (c :: t) then
                [] :: jsSplitGoF sep f ((c :: t).drop sep.length)
              else
                match jsSplitGoF sep f t with
                | [] => [[c]]
                | seg :: rest => (c :: seg) :: rest) =
             (if sep ≠ [] ∧ sep.isPrefixOf (c :: t) then
                [] :: jsSplitGoF sep f₂' ((c :: t).drop sep.length)
              else
                match jsSplitGoF sep f₂' t with
                | [] => [[c]]
                | seg :: rest => (c :: seg) :: rest)
        by_cases hp : sep ≠ [] ∧ sep.isPrefixOf (c :: t)
        · have hlen : sep.length ≥ 1 := List.length_pos.mpr hp.1
          have hd : ((c :: t).drop sep.length).length ≤ t.length := by
            simp only [List.length_drop, List.length_cons]
            omega
          simp only [if_pos hp]
          have := ih f₂' ((c :: t).drop sep.length)
            (le_trans hd (Nat.le_of_succ_le_succ h₁))
            (le_trans hd (Nat.le_of_succ_le_succ h₂))
          rw [this]
        · simp only [if_neg hp]
          have := ih f₂' t (Nat.le_of_succ_le_succ h₁) (Nat.le_of_succ_le_succ h₂)
          rw [this]

theorem jsSplitGo_nil (sep : List Char) : jsSplitGo sep [] = [[]] := rfl

theorem jsSplitGo_cons_pos (sep : List Char) (c : Char) (t : List Char)
    (h : sep ≠ [] ∧ sep.isPrefixOf (c :: t)) :
    jsSplitGo sep (c :: t) = [] :: jsSplitGo sep ((c :: t).drop sep.length) := by
  show (if sep ≠ [] ∧ sep.isPrefixOf (c :: t) then
          [] :: jsSplitGoF sep t.length ((c :: t).drop sep.length)
        else
          match jsSplitGoF sep t.length t with
          | [] => [[c]]
          | seg :: rest => (c :: seg) :: rest) = _
  have hlen : sep.length ≥ 1 := List.length_pos.mpr h.1
  have hd : ((c :: t).drop sep.length).length ≤ t.length := by
    simp only [List.length_drop, List.length_cons]
    omega
  simp only [if_pos h]
  congr 1
  exact jsSplitGoF_fuel sep t.length ((c :: t).drop sep.length).length _ hd le_rfl

theorem jsSplitGo_cons_neg (sep : List Char) (c : Char) (t : List Char)
    (h : ¬(sep ≠ [] ∧ sep.isPrefixOf (c :: t))) :
    jsSplitGo sep (c :: t) =
      match jsSplitGo sep t with
      | [] => [[c]]
      | seg :: rest => (c :: seg) :: rest := by
  show (if sep ≠ [] ∧ sep.isPrefixOf (c :: t) then
          [] :: jsSplitGoF sep t.length ((c :: t).drop sep.length)
        else
          match jsSplitGoF sep t.length t with
          | [] => [[c]]
          | seg :: rest => (c :: seg) :: rest) = _
  simp only [if_neg h]
  rfl

theorem jsSplitGoF_ne_nil (sep : List Char) :
    ∀ f l, jsSplitGoF sep f l ≠ [] := by
  intro f
  induction f with
  | zero =>
    intro l
    cases l <;> simp [jsSplitGoF]
  | succ f ih =>
    intro l
    match l with
    | [] => simp [jsSplitGoF]
    | c :: t =>
      show (if sep ≠ [] ∧ sep.isPrefixOf (c :: t) then
              [] :: jsSplitGoF sep f ((c :: t).drop sep.length)
            else
              match jsSplitGoF sep f t with
              | [] => [[c]]
              | seg :: rest => (c :: seg) :: rest) ≠ []
      by_cases hp : sep ≠ [] ∧ sep.isPrefixOf (c :: t)
      · rw [if_pos hp]
        simp
      · simp only [if_neg hp]
        match hrec : jsSplitGoF sep f t with
        | [] => simp
        | seg :: rest => simp

theorem jsSplitGo_ne_nil (sep l : List Char) : jsSplitGo sep l ≠ [] :=
  jsSplitGoF_ne_nil sep l.length l

/- Joining helpers for JavaScript Array.prototype.join. -/

theorem intercalate_single (r x : List Char) : List.intercalate r [x] = x := by
  simp [List.intercalate]

theorem intercalate_cons (r x : List Char) (xs : List (List Char)) (h : xs ≠ []) :
    List.intercalate r (x :: xs) = x ++ r ++ List.intercalate r xs := by
  obtain ⟨y, ys, rfl⟩ := List.exists_cons_of_ne_nil h
  simp [List.intercalate, List.intersperse_cons_cons, List.append_assoc]

/-- Two strings with the same character data are equal. -/
theorem string_data_eq (a b : String) (h : a.data = b.data) : a = b := by
  cases a
  cases b
  simp_all

theorem string_ne_empty_iff (s : String) : s ≠ "" ↔ s.data ≠ [] := by
  constructor
  · intro h hd
    exact h (string_data_eq s "" hd)
  · intro h hs
    subst hs
    exact h rfl

/- Occurrence counting. -/

theorem listIncludes_iff_exists (pat l : List Char) :
    listIncludes pat l = true ↔ ∃ u v, l = u ++ pat ++ v := by
  induction l with
  | nil =>
    simp only [listIncludes, List.isEmpty_iff]
    constructor
    · intro h
      exact ⟨[], [], by simp [h]⟩
    · rintro ⟨u, v, huv⟩
      have := huv.symm
      simp only [List.append_eq_nil] at this
      exact this.1.2
  | cons c t ih =>
    simp only [listIncludes, Bool.or_eq_true, ih]
    constructor
    · rintro (hpre | ⟨u, v, rfl⟩)
      · obtain ⟨v, hv⟩ := List.isPrefixOf_iff_prefix.mp hpre
        exact ⟨[], v, by simp [hv.symm]⟩
      · exact ⟨c :: u, v, by simp⟩
    · rintro ⟨u, v, huv⟩
      match u, huv with
      | [], huv =>
        left
        simp only [List.nil_append] at huv
        exact List.isPrefixOf_iff_prefix.mpr ⟨v, huv.symm⟩
      | u₀ :: us, huv =>
        right
        simp only [List.cons_append] at huv
        refine ⟨us, v, ?_⟩
        have h2 := congrArg List.tail huv
        simpa using h2

theorem posCount_cons_le (pat : List Char) (c : Char) (t : List Char) :
    posCount pat t ≤ posCount pat (c :: t) := by
  simp only [posCount]
  omega

theorem posCount_append_le (pat u t : List Char) :
    posCount pat t ≤ posCount pat (u ++ t) := by
  induction u with
  | nil => simp
  | cons c us ih => exact le_trans ih (posCount_cons_le pat c (us ++ t))

theorem posCount_drop_le (pat l : List Char) (k : Nat) :
    posCount pat (l.drop k) ≤ posCount pat l := by
  conv_rhs => rw [← List.take_append_drop k l]
  exact posCount_append_le pat (l.take k) (l.drop k)

theorem listIncludes_iff_posCount (pat l : List Char) :
    listIncludes pat l = true ↔ 0 < posCount pat l := by
  induction l with
  | nil =>
    simp only [listIncludes, posCount]
    by_cases h : pat.isEmpty <;> simp [h]
  | cons c t ih =>
    simp only [listIncludes, posCount, Bool.or_eq_true, ih]
    by_cases h : pat.isPrefixOf (c :: t) <;> simp [h]

theorem posCount_eq_zero_replaceAll (pat rep : List Char) :
    ∀ l, posCount pat l = 0 → replaceAll pat rep l = l := by
  intro l
  induction l with
  | nil => intro _; rfl
  | cons c t ih =>
    intro h
    simp only [posCount] at h
    have h1 : ¬ pat.isPrefixOf (c :: t) := by
      intro hp
      simp [hp] at h
    have h2 : posCount pat t = 0 := by
      by_cases hp : pat.isPrefixOf (c :: t)
      · simp [hp] at h
      · simp [hp] at h
        exact h
    rw [replaceAll_cons]
    rw [if_neg (by intro hc; exact h1 hc.2)]
    rw [ih h2]

theorem isPrefixOf_append_self (pat t : List Char) :
    pat.isPrefixOf (pat ++ t) = true :=
  List.isPrefixOf_iff_prefix.mpr (List.prefix_append pat t)

theorem posCount_append_self_pos (pat t : List Char) (h : pat ≠ []) :
    0 < posCount pat (pat ++ t) := by
  match pat, h with
  | p :: ps, _ =>
    show 0 < posCount (p :: ps) (p :: (ps ++ t))
    simp only [posCount]
    have : (p :: ps).isPrefixOf (p :: (ps ++ t)) = true :=
      isPrefixOf_append_self (p :: ps) t
    simp [this]

theorem posCount_append_self_one (pat t : List Char) (hne : pat ≠ [])
    (h : posCount pat (pat ++ t) = 1) : posCount pat t = 0 := by
  match pat, hne with
  | p :: ps, _ =>
    have hshow : posCount (p :: ps) ((p :: ps) ++ t)
        = (if (p :: ps).isPrefixOf (p :: (ps ++ t)) then 1 else 0)
          + posCount (p :: ps) (ps ++ t) := rfl
    have hpre : (p :: ps).isPrefixOf (p :: (ps ++ t)) = true :=
      isPrefixOf_append_self (p :: ps) t
    rw [hshow, hpre] at h
    simp at h
    have := posCount_append_le (p :: ps) ps t
    omega

theorem replaceAll_append_self (pat rep t : List Char) (h : pat ≠ []) :
    replaceAll pat rep (pat ++ t) = rep ++ replaceAll pat rep t := by
  match pat, h with
  | p :: ps, _ =>
    have hcons : (p :: ps) ++ t = p :: (ps ++ t) := rfl
    rw [hcons, replaceAll_cons]
    have hpre : (p :: ps).isPrefixOf (p :: (ps ++ t)) = true := by
      rw [← hcons]
      exact isPrefixOf_append_self (p :: ps) t
    rw [if_pos ⟨by simp, hpre⟩]
    congr 1
    rw [← hcons, List.drop_left]

theorem posCount_pos_replaceAll (pat rep : List Char) (hpat : pat ≠ [])
    (hrep : rep ≠ []) :
    ∀ n l, l.length = n → 0 < posCount pat l →
      0 < posCount rep (replaceAll pat rep l) := by
  intro n
  induction n using Nat.strong_induction_on with
  | _ n ih =>
    intro l hl hpos
    match l with
    | [] => simp [posCount, List.isEmpty_iff, hpat] at hpos
    | c :: t =>
      by_cases hp : pat.isPrefixOf (c :: t)
      · obtain ⟨t', ht'⟩ := List.isPrefixOf_iff_prefix.mp hp
        rw [← ht', replaceAll_append_self pat rep t' hpat]
        exact lt_of_lt_of_le (posCount_append_self_pos rep _ hrep)
          (le_of_eq rfl)
      · rw [replaceAll_cons, if_neg (by intro hc; exact hp hc.2)]
        have hpos' : 0 < posCount pat t := by
          simp only [posCount, hp] at hpos
          simpa using hpos
        have hlt : t.length < n := by
          subst hl
          simp
        have := ih t.length hlt t rfl hpos'
        exact lt_of_lt_of_le this (posCount_cons_le rep c _)

/-- The code's data.split(sep).join(rep) with a nonempty separator is exactly
leftmost non-overlapping replacement of every occurrence of sep by rep. -/
theorem intercalate_jsSplitGo (sep rep : List Char) (hsep : sep ≠ []) :
    ∀ l, List.intercalate rep (jsSplitGo sep l) = replaceAll sep rep l := by
  have main : ∀ n l, l.length = n →
      List.intercalate rep (jsSplitGo sep l) = replaceAll sep rep l := by
    intro n
    induction n using Nat.strong_induction_on with
    | _ n ih =>
      intro l hl
      match l with
      | [] => rw [jsSplitGo_nil, replaceAll_nil, intercalate_single]
      | c :: t =>
        by_cases hp : sep.isPrefixOf (c :: t)
        · have hcond : sep ≠ [] ∧ sep.isPrefixOf (c :: t) := ⟨hsep, hp⟩
          rw [jsSplitGo_cons_pos sep c t hcond, replaceAll_cons, if_pos hcond]
          rw [intercalate_cons rep [] _ (jsSplitGo_ne_nil sep _)]
          have hlen : sep.length ≥ 1 := List.length_pos.mpr hsep
          have hlt : ((c :: t).drop sep.length).length < n := by
            subst hl
            simp only [List.length_drop, List.length_cons]
            omega
          rw [ih _ hlt _ rfl]
          simp
        · have hcond : ¬(sep ≠ [] ∧ sep.isPrefixOf (c :: t)) := by
            intro hc
            exact hp hc.2
          rw [jsSplitGo_cons_neg sep c t hcond, replaceAll_cons, if_neg hcond]
          have hlt : t.length < n := by
            subst hl
            simp
          have iht := ih t.length hlt t rfl
          match hgs : jsSplitGo sep t with
          | [] => exact absurd hgs (jsSplitGo_ne_nil sep t)
          | seg :: rest =>
            rw [hgs] at iht
            match rest with
            | [] =>
              rw [intercalate_single] at iht
              simp only
              rw [intercalate_single, iht]
            | z :: zs =>
              rw [intercalate_cons rep seg (z :: zs) (by simp)] at iht
              simp only
              rw [intercalate_cons rep (c :: seg) (z :: zs) (by simp)]
              rw [← iht]
              simp

  intro l
  exact main l.length l rfl

/-- Round-trip for leftmost replacement: when the search string occurs exactly
once and the replacement occurs exactly once in the intermediate result,
replacing back restores the original list. -/
theorem replaceAll_roundtrip (s r : List Char) (hs : s ≠ []) (hr : r ≠ []) :
    ∀ n l, l.length = n → posCount s l = 1 →
      posCount r (replaceAll s r l) = 1 →
      replaceAll r s (replaceAll s r l) = l := by
  intro n
  induction n using Nat.strong_induction_on with
  | _ n ih =>
    intro l hl h1 h2
    match l with
    | [] =>
      exfalso
      have hz : posCount s [] = 0 := by
        simp [posCount, List.isEmpty_iff, hs]
      omega
    | c :: t =>
      by_cases hp : s.isPrefixOf (c :: t)
      · obtain ⟨t', ht'⟩ := List.isPrefixOf_iff_prefix.mp hp
        rw [← ht'] at h1 h2 ⊢
        have hz : posCount s t' = 0 := posCount_append_self_one s t' hs h1
        have hstep : replaceAll s r (s ++ t') = r ++ t' := by
          rw [replaceAll_append_self s r t' hs, posCount_eq_zero_replaceAll s r t' hz]
        rw [hstep] at h2 ⊢
        have hz2 : posCount r t' = 0 := posCount_append_self_one r t' hr h2
        rw [replaceAll_append_self r s t' hr, posCount_eq_zero_replaceAll r s t' hz2]
      · have hcond : ¬(s ≠ [] ∧ s.isPrefixOf (c :: t)) := by
          intro hc
          exact hp hc.2
        rw [replaceAll_cons, if_neg hcond] at h2 ⊢
        have h1t : posCount s t = 1 := by
          have : posCount s (c :: t)
              = (if s.isPrefixOf (c :: t) then 1 else 0) + posCount s t := rfl
          rw [this, if_neg hp] at h1
          simpa using h1
        have hmpos : 0 < posCount r (replaceAll s r t) :=
          posCount_pos_replaceAll s r hs hr t.length t rfl (by omega)
        have hcons2 : posCount r (c :: replaceAll s r t)
            = (if r.isPrefixOf (c :: replaceAll s r t) then 1 else 0)
              + posCount r (replaceAll s r t) := rfl
        rw [hcons2] at h2
        have hnp : ¬ r.isPrefixOf (c :: replaceAll s r t) := by
          intro hpre
          rw [if_pos hpre] at h2
          omega
        have hm1 : posCount r (replaceAll s r t) = 1 := by
          rw [if_neg hnp] at h2
          simpa using h2
        rw [replaceAll_cons, if_neg (by intro hc; exact hnp hc.2)]
        have hlt : t.length < n := by
          subst hl
          simp
        rw [ih t.length hlt t rfl h1t hm1]

/- Filesystem, tool dispatch, sandbox and control-loop model. -/

/-- Filesystem model: a partial map from path to file content. -/
abbrev FS : Type := String → Option String

def emptyFS : FS := fun _ => none

def updateFS (fs : FS) (p v : String) : FS :=
  fun q => if q = p then some v else fs q

def removeFS (fs : FS) (p : String) : FS :=
  fun q => if q = p then none else fs q

/-- The spawnSync result as the run_terminal_command handler reads it. -/
structure SpawnResult where
  stdout : String
  stderr : String
deriving DecidableEq

/-- The options the sandbox passes to spawnSync; only the field the claims
are about: the wall-clock timeout in milliseconds, none when not set. -/
structure SpawnOpts where
  timeoutMs : Option Nat
deriving DecidableEq

/-- The spawnSync result as the sandbox reads it: the code of result.error
when present, result.status (none when the process was killed or never
spawned), and the captured streams. -/
structure SpawnOutcome where
  errCode : Option String
  status : Option Int
  stdout : String
  stderr : String
deriving DecidableEq

/-- A native tool invocation: the four built-in tools with the arguments
their schemas require; write_file's optional append flag as a Bool
(JavaScript truthiness of args.append). -/
inductive ToolCall where
  | read_file (path : String)
  | write_file (path text : String) (append : Bool)
  | search_and_replace (path search replace : String)
  | run_terminal_command (command : String)
deriving DecidableEq

def toolName : ToolCall → String
  | .read_file _ => "read_file"
  | .write_file _ _ _ => "write_file"
  | .search_and_replace _ _ _ => "search_and_replace"
  | .run_terminal_command _ => "run_terminal_command"

/-- Message of the ENOENT exception fs.readFileSync raises for a missing
file; the handler's catch block reads it as e.message. -/
def enoentMsg (p : String) : String :=
  "ENOENT: no such file or directory, open " ++ p

/-- The not-found error text of the search_and_replace branch. -/
def sarNotFound (s : String) : String :=
  "Error: String \"" ++ s ++ "\" not found."

/-- Body of handleNativeTool (the tool-calling agent variant whose
write_file honors the append flag). Except.error models a raised
filesystem exception, to be caught by the try/catch wrapper. The source's
early return on !data.includes(args.search) is the else branch here. -/
def nativeToolBody (exec : String → SpawnResult) (call : ToolCall) (fs : FS) :
    Except String (String × FS) :=
  match call with
  | .read_file p =>
    match fs p with
    | some data => .ok (data, fs)
    | none => .error (enoentMsg p)
  | .search_and_replace p s r =>
    match fs p with
    | none => .error (enoentMsg p)
    | some data =>
      if strIncludes data s then
        .ok ("Successfully replaced text in " ++ p,
             updateFS fs p (jsSplitJoinStr data s r))
      else
        .ok (sarNotFound s, fs)
  | .write_file p t app =>
    if app then
      .ok ("Successfully appended to " ++ p,
           updateFS fs p (((fs p).getD "") ++ t))
    else
      .ok ("Successfully wrote to " ++ p, updateFS fs p t)
  | .run_terminal_command c =>
    .ok (jsOr (exec c).stdout
          (jsOr (exec c).stderr "Command executed (no output)."), fs)

/-- handleNativeTool of the tool-calling agent (the variant with append
support): the body runs inside try/catch; a raised exception e becomes the
text "Error executing <name>: <e.message>" and the filesystem is left as
it was, so the handler always returns a string. -/
def handleNativeTool (exec : String → SpawnResult) (call : ToolCall) (fs : FS) :
    String × FS :=
  match nativeToolBody exec call fs with
  | .ok res => res
  | .error e => ("Error executing " ++ toolName call ++ ": " ++ e, fs)

/-- Body of the handleNativeTool variant whose write_file branch is
fs.writeFileSync(fullPath, args.text || args.data || args.newData): the
append argument is never consulted and the file is always overwritten (the
schema's required text argument is modelled as present, so the || chain
yields it). Its run_terminal_command no-output default text also differs. -/
def nativeToolBodyV2 (exec : String → SpawnResult) (call : ToolCall) (fs : FS) :
    Except String (String × FS) :=
  match call with
  | .read_file p =>
    match fs p with
    | some data => .ok (data, fs)
    | none => .error (enoentMsg p)
  | .search_and_replace p s r =>
    match fs p with
    | none => .error (enoentMsg p)
    | some data =>
      if strIncludes data s then
        .ok ("Successfully replaced text in " ++ p,
             updateFS fs p (jsSplitJoinStr data s r))
      else
        .ok (sarNotFound s, fs)
  | .write_file p t _app =>
    .ok ("Successfully wrote to " ++ p, updateFS fs p t)
  | .run_terminal_command c =>
    .ok (jsOr (exec c).stdout
          (jsOr (exec c).stderr "Command executed with no output."), fs)

/-- handleNativeTool of the overwrite-only variant, with the same try/catch
wrapper. -/
def handleNativeToolV2 (exec : String → SpawnResult) (call : ToolCall) (fs : FS) :
    String × FS :=
  match nativeToolBodyV2 exec call fs with
  | .ok res => res
  | .error e => ("Error executing " ++ toolName call ++ ": " ++ e, fs)

/-- Decimal digit character: 0 ↦ chr 48, ..., 9 ↦ chr 57. -/
def digitChar (d : Nat) : Char := Char.ofNat (48 + d)

/-- Decimal rendering of a Nat, as JavaScript template interpolation
renders Date.now() into the temp file name. -/
def natDecChars (n : Nat) : List Char :=
  if n = 0 then ['0'] else ((Nat.digits 10 n).map digitChar).reverse

/-- Temp file name of the part_003 sandbox: temp_exec_<Date.now()>.js. -/
def tempFileName (now : Nat) : String :=
  ⟨"temp_exec_".data ++ natDecChars now ++ ".js".data⟩

/-- Temp file name of the index.js sandbox: always temp.js, independent of
the invocation time. -/
def tempFileNameV0 (_now : Nat) : String := "temp.js"

/-- spawnSync options of the part_003 sandbox: timeout 60000 ms. -/
def executeSegmentOpts : SpawnOpts := ⟨some 60000⟩

/-- spawnSync options of the index.js sandbox: no timeout configured. -/
def executeSegmentV0Opts : SpawnOpts := ⟨none⟩

/-- The sandbox verdict the control loop consumes. -/
structure ExecResult where
  error : Bool
  log : String
deriving DecidableEq

/-- The distinct failure message the part_003 sandbox reports on timeout. -/
def timeoutMsg : String := "Execution timed out (60s limit)."

/-- executeSegment of the part_003 second program: write the segment to a
timestamp-named temp file, spawn node on it with a 60 s timeout, delete
the temp file if it still exists, and classify the outcome, reporting an
ETIMEDOUT error with the distinct timeout message. spawn abstracts
spawnSync. -/
def executeSegment (spawn : String → List String → SpawnOpts → SpawnOutcome)
    (now : Nat) (segment : String) (fs : FS) : ExecResult × FS :=
  let tf := tempFileName now
  let fs1 := updateFS fs tf segment
  let outcome := spawn "node" [tf] executeSegmentOpts
  let fs2 := if (fs1 tf).isSome then removeFS fs1 tf else fs1
  if outcome.errCode == some "ETIMEDOUT" then
    ({ error := true, log := timeoutMsg }, fs2)
  else
    ({ error := outcome.errCode.isSome || !(outcome.status == some 0),
       log := jsOr outcome.stderr outcome.stdout }, fs2)

/-- executeSegment of index.js: fixed temp.js name, no timeout option,
unconditional unlink, no distinct timeout branch; on failure the log is
stderr || stdout, on success stdout. -/
def executeSegmentV0 (spawn : String → List String → SpawnOpts → SpawnOutcome)
    (now : Nat) (segment : String) (fs : FS) : ExecResult × FS :=
  let tf := tempFileNameV0 now
  let fs1 := updateFS fs tf segment
  let outcome := spawn "node" [tf] executeSegmentV0Opts
  let fs2 := removeFS fs1 tf
  if outcome.errCode.isSome || !(outcome.status == some 0) then
    ({ error := true, log := jsOr outcome.stderr outcome.stdout }, fs2)
  else
    ({ error := false, log := outcome.stdout }, fs2)

/-- The mutable loop state threaded through the outer control loop. -/
structure LoopState where
  progressLog : String
  errorLog : String
  projectStateSummary : String
deriving DecidableEq

/-- The model-backend responses one outer iteration consumes: the
summarizer response, the generation turn's final textual content (after
any inner tool-calling rounds), the result of executing that content, and
the completion-check response content. -/
structure IterInput where
  summaryResp : String
  segment : String
  exec : ExecResult
  checkResp : String
deriving DecidableEq

/-- Whether the outer while loop continues to the next iteration or breaks. -/
inductive StepOutcome where
  | next (st : LoopState)
  | halt (st : LoopState)
deriving DecidableEq

def StepOutcome.state : StepOutcome → LoopState
  | .next st => st
  | .halt st => st

/-- One outer iteration of the code-emission control loop (part_003 second
program): store the trimmed summarizer response; if the generation content
contains PROJECT_DONE, break; otherwise execute the segment; on failure
set errorLog to the captured output; on success append to progressLog,
clear errorLog, and break when the completion-check content, lowered,
contains "yes". -/
def loopStep (st : LoopState) (inp : IterInput) : StepOutcome :=
  let st1 : LoopState := { st with projectStateSummary := jsTrim inp.summaryResp }
  if strIncludes inp.segment "PROJECT_DONE" then .halt st1
  else if inp.exec.error then
    .next { st1 with errorLog := inp.exec.log }
  else
    let st2 : LoopState :=
      { st1 with
        progressLog := st1.progressLog ++ "\nCode: " ++ inp.segment
          ++ "\nOutput: " ++ inp.exec.log,
        errorLog := "" }
    if strIncludes (jsToLower inp.checkResp) "yes" then .halt st2 else .next st2

/-- Summarizer slice length: Math.round((contextLength / 6) / 2), the
nearest integer to contextLength / 12 with halves rounded up. -/
def sliceLen (contextLength : Nat) : Nat := (contextLength + 6) / 12

/-- The summarize prompt sent at the top of every outer iteration: bounded
trailing slices of ProgressLog and ErrorLog plus the previous summary. -/
def summarizePrompt (contextLength : Nat)
    (progressLog errorLog summary : String) : String :=
  "History: " ++ jsSliceNeg (sliceLen contextLength) progressLog ++
  "\nErrors: " ++ jsSliceNeg (sliceLen contextLength) errorLog ++
  "\nSummary: " ++ summary ++ "\nUpdate summary."

/-- The stored ProjectStateSummary after the summarize step: the backend's
response to the summarize prompt, trimmed; no length enforcement is
applied to it. -/
def summarizeStore (backend : String → String) (contextLength : Nat)
    (progressLog errorLog summary : String) : String :=
  jsTrim (backend (summarizePrompt contextLength progressLog errorLog summary))

/-- Router classification of a task from the router response content:
const isAction = routeResponse.message.content.includes("ACTION"). -/
def routeIsAction (content : String) : Bool := strIncludes content "ACTION"

/- Shared lemmas about the handler and strings. -/

theorem string_append_data (a b : String) : (a ++ b).data = a.data ++ b.data := by
  cases a
  cases b
  rfl

theorem string_append_assoc (a b c : String) : a ++ b ++ c = a ++ (b ++ c) := by
  apply string_data_eq
  simp [string_append_data, List.append_assoc]

theorem sar_notfound_eq (exec : String → SpawnResult) (fs : FS)
    (p s r data : String) (hdata : fs p = some data)
    (hni : strIncludes data s = false) :
    handleNativeTool exec (.search_and_replace p s r) fs = (sarNotFound s, fs) := by
  simp [handleNativeTool, nativeToolBody, hdata, hni]

theorem sar_found_eq (exec : String → SpawnResult) (fs : FS)
    (p s r data : String) (hdata : fs p = some data)
    (hs : s.data ≠ []) (hinc : strIncludes data s = true) :
    handleNativeTool exec (.search_and_replace p s r) fs
      = ("Successfully replaced text in " ++ p,
         updateFS fs p ⟨replaceAll s.data r.data data.data⟩) := by
  have hrepl : jsSplitJoinStr data s r = (⟨replaceAll s.data r.data data.data⟩ : String) := by
    unfold jsSplitJoinStr jsSplit
    rw [if_neg (by simpa [List.isEmpty_iff] using hs)]
    rw [intercalate_jsSplitGo s.data r.data hs data.data]
  simp [handleNativeTool, nativeToolBody, hdata, hinc, hrepl]

theorem updateFS_same (fs : FS) (p v : String) : updateFS fs p v p = some v := by
  simp [updateFS]

/- Claim theorems. -/

/-- Claim C4 (counterexample): the empty router response contains neither
classification keyword, yet the task is classified as CHAT
(isAction = false), not ACTION as the claim states. -/
theorem router_malformed_defaults_chat_cex :
    routeIsAction "" = false ∧ strIncludes "" "CHAT" = false := by
  decide

/-- Claim C4 (amended): the router classifies the task as ACTION exactly
when the response content contains the literal substring "ACTION"; any
response without it, including ambiguous or malformed ones, defaults to
CHAT. -/
theorem router_action_iff_contains_action (content : String) :
    routeIsAction content = true ↔ ∃ u v : String, content = u ++ "ACTION" ++ v := by
  unfold routeIsAction strIncludes
  rw [listIncludes_iff_exists]
  constructor
  · rintro ⟨u, v, huv⟩
    refine ⟨⟨u⟩, ⟨v⟩, ?_⟩
    apply string_data_eq
    rw [string_append_data, string_append_data]
    exact huv
  · rintro ⟨u, v, huv⟩
    refine ⟨u.data, v.data, ?_⟩
    rw [huv, string_append_data, string_append_data]

/-- Claim C3: a failing iteration leaves ProgressLog unchanged, and in every
case the new ProgressLog is the old one extended by some appended suffix
(empty except on the success branch), never truncated or otherwise
modified. -/
theorem progressLog_append_only (st : LoopState) (inp : IterInput) :
    (inp.exec.error = true → (loopStep st inp).state.progressLog = st.progressLog) ∧
    (∃ suffix, (loopStep st inp).state.progressLog = st.progressLog ++ suffix) := by
  unfold loopStep
  by_cases h1 : strIncludes inp.segment "PROJECT_DONE" = true
  · refine ⟨fun _ => ?_, "", ?_⟩ <;> simp [h1, StepOutcome.state]
  · by_cases h2 : inp.exec.error = true
    · refine ⟨fun _ => ?_, "", ?_⟩ <;> simp [h1, h2, StepOutcome.state]
    · by_cases h3 : strIncludes (jsToLower inp.checkResp) "yes" = true
      · refine ⟨fun hc => absurd hc h2,
          "\nCode: " ++ inp.segment ++ "\nOutput: " ++ inp.exec.log, ?_⟩
        simp [h1, h2, h3, StepOutcome.state, string_append_assoc]
      · refine ⟨fun hc => absurd hc h2,
          "\nCode: " ++ inp.segment ++ "\nOutput: " ++ inp.exec.log, ?_⟩
        simp [h1, h2, h3, StepOutcome.state, string_append_assoc]

/-- Claim C3 (witness): a concrete failing iteration leaves ProgressLog
exactly as it was, and ProgressLog is extended by a suffix. -/
theorem progressLog_append_only_witness :
    (loopStep ⟨"P", "", ""⟩ ⟨"s", "seg", ⟨true, "err"⟩, "no"⟩).state.progressLog = "P" ∧
    (∃ suffix,
      (loopStep ⟨"P", "", ""⟩ ⟨"s", "seg", ⟨true, "err"⟩, "no"⟩).state.progressLog
        = "P" ++ suffix) :=
  ⟨(progressLog_append_only ⟨"P", "", ""⟩ ⟨"s", "seg", ⟨true, "err"⟩, "no"⟩).1 rfl,
   (progressLog_append_only ⟨"P", "", ""⟩ ⟨"s", "seg", ⟨true, "err"⟩, "no"⟩).2⟩

/-- Claim C2 (counterexample): a failing execution whose process produced no
output (exit status 1, empty stdout and stderr) makes the loop store an
empty ErrorLog, so after this failing iteration ErrorLog is empty even
though the most recent outcome was a failure — the claimed equivalence
fails in the failure-implies-nonempty direction. -/
theorem errorLog_iff_failure_cex :
    (executeSegment (fun _ _ _ => ⟨none, some 1, "", ""⟩) 0 "process.exit(1)" emptyFS).1.error
      = true ∧
    (loopStep ⟨"", "", ""⟩
      ⟨"s", "seg",
       (executeSegment (fun _ _ _ => ⟨none, some 1, "", ""⟩) 0 "process.exit(1)" emptyFS).1,
       "no"⟩).state.errorLog = "" := by
  decide

/-- Claim C2 (amended): after an outer iteration that continues the loop,
ErrorLog is empty when the execution succeeded and equals the failure's
captured output when it failed (which can be empty when the failing
process printed nothing); hence a non-empty ErrorLog implies the most
recent outcome was a failure, and every successful iteration clears it. -/
theorem errorLog_tracks_failure (st : LoopState) (inp : IterInput)
    (st' : LoopState) (h : loopStep st inp = .next st') :
    (inp.exec.error = false → st'.errorLog = "") ∧
    (inp.exec.error = true → st'.errorLog = inp.exec.log) ∧
    (st'.errorLog ≠ "" → inp.exec.error = true) := by
  unfold loopStep at h
  by_cases h1 : strIncludes inp.segment "PROJECT_DONE" = true
  · simp only [h1, if_true] at h
    exact absurd h (by simp)
  · simp only [Bool.not_eq_true] at h1
    simp only [h1, Bool.false_eq_true, if_false] at h
    by_cases h2 : inp.exec.error = true
    · simp only [h2, if_true] at h
      have hst : st' = { st with projectStateSummary := jsTrim inp.summaryResp,
                                 errorLog := inp.exec.log } := by
        cases h
        rfl
      subst hst
      refine ⟨fun hc => by simp [h2] at hc, fun _ => rfl, fun _ => h2⟩
    · simp only [Bool.not_eq_true] at h2
      simp only [h2, Bool.false_eq_true, if_false] at h
      by_cases h3 : strIncludes (jsToLower inp.checkResp) "yes" = true
      · simp only [h3, if_true] at h
        exact absurd h (by simp)
      · simp only [Bool.not_eq_true] at h3
        simp only [h3, Bool.false_eq_true, if_false] at h
        have hst : st'.errorLog = "" := by
          cases h
          rfl
        refine ⟨fun _ => hst, fun hc => by simp [h2] at hc, fun hne => absurd hst hne⟩

/-- Claim C2 (witness): a concrete failing iteration stores exactly the
failure's captured output in ErrorLog. -/
theorem errorLog_tracks_failure_witness :
    (LoopState.mk "" "boom" "s").errorLog = (ExecResult.mk true "boom").log :=
  (errorLog_tracks_failure ⟨"", "", ""⟩ ⟨"s", "seg", ⟨true, "boom"⟩, "no"⟩
    ⟨"", "boom", "s"⟩ (by decide)).2.1 rfl

/-- Claim C1 (counterexample): an iteration entered with a pending error
(ErrorLog non-empty) still terminates the loop when the generation content
contains PROJECT_DONE — the exit checks are not ignored when a pending
error exists. -/
theorem pending_error_exit_cex :
    ("previous failure" : String) ≠ "" ∧
    loopStep ⟨"", "previous failure", ""⟩
        ⟨"sum", "PROJECT_DONE", ⟨false, ""⟩, "no"⟩
      = .halt ⟨"", "previous failure", "sum"⟩ := by
  decide

/-- Claim C1 (amended): the outer loop terminates only through the two
checks — a halt implies the generation content contained PROJECT_DONE or
the execution succeeded and the completion check answered yes — and an
iteration whose execution fails (without the sentinel) always continues;
but a pending error entering the iteration suppresses neither check. -/
theorem loop_halts_only_via_checks (st : LoopState) (inp : IterInput) :
    (∀ st', loopStep st inp = .halt st' →
      strIncludes inp.segment "PROJECT_DONE" = true ∨
      (inp.exec.error = false ∧ strIncludes (jsToLower inp.checkResp) "yes" = true)) ∧
    (strIncludes inp.segment "PROJECT_DONE" = false → inp.exec.error = true →
      ∃ st', loopStep st inp = .next st') := by
  constructor
  · intro st' h
    unfold loopStep at h
    by_cases h1 : strIncludes inp.segment "PROJECT_DONE" = true
    · exact Or.inl h1
    · simp only [Bool.not_eq_true] at h1
      simp only [h1, Bool.false_eq_true, if_false] at h
      by_cases h2 : inp.exec.error = true
      · simp only [h2, if_true] at h
        exact absurd h (by simp)
      · simp only [Bool.not_eq_true] at h2
        simp only [h2, Bool.false_eq_true, if_false] at h
        by_cases h3 : strIncludes (jsToLower inp.checkResp) "yes" = true
        · exact Or.inr ⟨h2, h3⟩
        · simp only [Bool.not_eq_true] at h3
          simp only [h3, Bool.false_eq_true, if_false] at h
          exact absurd h (by simp)
  · intro h1 h2
    unfold loopStep
    simp only [h1, Bool.false_eq_true, if_false, h2, if_true]
    exact ⟨_, rfl⟩

/-- Claim C1 (witness): a concrete iteration without the sentinel whose
execution fails continues the loop. -/
theorem loop_halts_only_via_checks_witness :
    ∃ st', loopStep ⟨"", "", ""⟩ ⟨"s", "try again", ⟨true, "err"⟩, "yes"⟩ = .next st' :=
  (loop_halts_only_via_checks ⟨"", "", ""⟩ ⟨"s", "try again", ⟨true, "err"⟩, "yes"⟩).2
    (by decide) rfl

/-- Claim C5: search_and_replace with an absent search string returns the
not-found error text and leaves the filesystem, hence the file, unchanged;
with a present nonempty search string it reports success and writes back
the file with every literal occurrence of search replaced by replace
(leftmost, non-overlapping). -/
theorem search_and_replace_spec (exec : String → SpawnResult) (fs : FS)
    (p s r data : String) (hdata : fs p = some data) :
    (strIncludes data s = false →
      handleNativeTool exec (.search_and_replace p s r) fs = (sarNotFound s, fs)) ∧
    (strIncludes data s = true → s.data ≠ [] →
      handleNativeTool exec (.search_and_replace p s r) fs
        = ("Successfully replaced text in " ++ p,
           updateFS fs p ⟨replaceAll s.data r.data data.data⟩)) := by
  constructor
  · intro hni
    exact sar_notfound_eq exec fs p s r data hdata hni
  · intro hinc hs
    exact sar_found_eq exec fs p s r data hdata hs hinc

/-- Claim C5 (witness): on the concrete file "abcabc", searching for the
absent "zz" returns the error text with the filesystem untouched, and
replacing the present "b" by "XY" writes "aXYcaXYc". -/
theorem search_and_replace_spec_witness :
    handleNativeTool (fun _ => ⟨"", ""⟩) (.search_and_replace "f" "zz" "Q")
        (updateFS emptyFS "f" "abcabc")
      = (sarNotFound "zz", updateFS emptyFS "f" "abcabc") ∧
    handleNativeTool (fun _ => ⟨"", ""⟩) (.search_and_replace "f" "b" "XY")
        (updateFS emptyFS "f" "abcabc")
      = ("Successfully replaced text in f",
         updateFS (updateFS emptyFS "f" "abcabc") "f" "aXYcaXYc") := by
  constructor
  · exact (search_and_replace_spec (fun _ => ⟨"", ""⟩) (updateFS emptyFS "f" "abcabc")
      "f" "zz" "Q" "abcabc" (by decide)).1 (by decide)
  · have h := (search_and_replace_spec (fun _ => ⟨"", ""⟩) (updateFS emptyFS "f" "abcabc")
      "f" "b" "XY" "abcabc" (by decide)).2 (by decide) (by decide)
    have hx : (⟨replaceAll "b".data "XY".data "abcabc".data⟩ : String) = "aXYcaXYc" := by
      decide
    rw [hx] at h
    exact h

/-- Claim C6 (counterexample): in the file content "xay" the search string
"a" occurs exactly once, yet replacing "a" by "x" and then "x" by "a"
yields "aay", not the original "xay": the round-trip fails when the
replacement string collides with pre-existing content. -/
theorem search_replace_roundtrip_cex :
    posCount "a".data "xay".data = 1 ∧
    (handleNativeTool (fun _ => ⟨"", ""⟩) (.search_and_replace "f" "x" "a")
        ((handleNativeTool (fun _ => ⟨"", ""⟩) (.search_and_replace "f" "a" "x")
          (updateFS emptyFS "f" "xay")).2)).2 "f" = some "aay" ∧
    ("aay" : String) ≠ "xay" := by
  decide

/-- Claim C6 (amended): the round-trip restores the original byte content
provided, in addition to the search string occurring exactly once, that
the replacement string is nonempty and occurs exactly once in the
intermediate content — the counterexample shows the round-trip fails
without this. -/
theorem search_replace_roundtrip (exec : String → SpawnResult) (fs : FS)
    (p s r data : String) (hdata : fs p = some data)
    (hs : s.data ≠ []) (hr : r.data ≠ [])
    (h1 : posCount s.data data.data = 1)
    (h2 : posCount r.data (replaceAll s.data r.data data.data) = 1) :
    (handleNativeTool exec (.search_and_replace p r s)
        ((handleNativeTool exec (.search_and_replace p s r) fs).2)).2 p
      = some data := by
  have hinc1 : strIncludes data s = true := by
    unfold strIncludes
    rw [listIncludes_iff_posCount]
    omega
  rw [sar_found_eq exec fs p s r data hdata hs hinc1]
  set inter : String := ⟨replaceAll s.data r.data data.data⟩ with hinter
  have hfs1 : updateFS fs p inter p = some inter := updateFS_same fs p inter
  have hinc2 : strIncludes inter r = true := by
    unfold strIncludes
    rw [listIncludes_iff_posCount]
    have : inter.data = replaceAll s.data r.data data.data := rfl
    rw [this]
    omega
  rw [sar_found_eq exec (updateFS fs p inter) p r s inter hfs1 hr hinc2]
  have hback : replaceAll r.data s.data inter.data = data.data := by
    have : inter.data = replaceAll s.data r.data data.data := rfl
    rw [this]
    exact replaceAll_roundtrip s.data r.data hs hr data.data.length data.data rfl h1 h2
  have : (⟨replaceAll r.data s.data inter.data⟩ : String) = data := by
    apply string_data_eq
    exact hback
  rw [this]
  exact updateFS_same (updateFS fs p inter) p data

/-- Claim C6 (witness): the concrete file "uvw" with search "v" and replace
"z" satisfies both exactly-once conditions, and the two dispatches restore
the original content. -/
theorem search_replace_roundtrip_witness :
    (handleNativeTool (fun _ => ⟨"", ""⟩) (.search_and_replace "f" "z" "v")
        ((handleNativeTool (fun _ => ⟨"", ""⟩) (.search_and_replace "f" "v" "z")
          (updateFS emptyFS "f" "uvw")).2)).2 "f" = some "uvw" :=
  search_replace_roundtrip (fun _ => ⟨"", ""⟩) (updateFS emptyFS "f" "uvw")
    "f" "v" "z" "uvw" (by decide) (by decide) (by decide) (by decide) (by decide)

/-- Claim C7: two write_file dispatches with path x.txt, text "a" and
append true leave the file containing "aa" under the append-capable
handler, but only "a" under the overwrite-only variant, which never
consults its append argument despite its own description of write_file as
"Write or append text to a file". -/
theorem write_file_append_twice :
    (handleNativeTool (fun _ => ⟨"", ""⟩) (.write_file "x.txt" "a" true)
       ((handleNativeTool (fun _ => ⟨"", ""⟩) (.write_file "x.txt" "a" true)
         emptyFS).2)).2 "x.txt" = some "aa" ∧
    (handleNativeToolV2 (fun _ => ⟨"", ""⟩) (.write_file "x.txt" "a" true)
       ((handleNativeToolV2 (fun _ => ⟨"", ""⟩) (.write_file "x.txt" "a" true)
         emptyFS).2)).2 "x.txt" = some "a" := by
  decide

/-- Claim C9 (counterexample): the summarize step stores the backend's
trimmed response with no length enforcement: with context budget 12, so
that every "fraction of the configured context budget" bound is at most
12, a 13-character backend response is stored in full. -/
theorem summarize_unbounded_cex :
    (summarizeStore (fun _ => "aaaaaaaaaaaaa") 12 "p" "e" "s").data.length > 12 := by
  decide

/-- Claim C9 (amended): the summarize step bounds its inputs, not its
output: the progress and error tails placed in the summarize prompt are
trailing slices of at most sliceLen contextLength = round(contextLength/12)
characters each, however large the logs have grown; the stored summary
itself is the backend's trimmed response and is not length-enforced. -/
theorem summarize_input_bounded (c : Nat) (h : 0 < sliceLen c) (p e : String) :
    (jsSliceNeg (sliceLen c) p).data.length ≤ sliceLen c ∧
    (jsSliceNeg (sliceLen c) e).data.length ≤ sliceLen c := by
  unfold jsSliceNeg
  rw [if_neg (by omega), if_neg (by omega)]
  constructor <;> simp [List.length_drop] <;> omega

/-- Claim C9 (witness): with context budget 24 the slice length is 2 and a
24-character progress log is sliced to at most 2 characters. -/
theorem summarize_input_bounded_witness :
    (jsSliceNeg (sliceLen 24) "aaaaaaaaaaaaaaaaaaaaaaaa").data.length ≤ sliceLen 24 ∧
    (jsSliceNeg (sliceLen 24) "bbbb").data.length ≤ sliceLen 24 :=
  summarize_input_bounded 24 (by decide) "aaaaaaaaaaaaaaaaaaaaaaaa" "bbbb"

/-- Claim C10: the native tool handler never propagates an exception: the
body's raised exceptions are exactly the missing-file reads of read_file
and search_and_replace, each is caught and converted to the text
"Error executing <name>: <message>" with the filesystem unchanged, and
every non-raising body result is returned as is, so dispatch always
returns a string. -/
theorem handleNativeTool_total (exec : String → SpawnResult) (call : ToolCall)
    (fs : FS) :
    (∀ e, nativeToolBody exec call fs = .error e →
      handleNativeTool exec call fs
        = ("Error executing " ++ toolName call ++ ": " ++ e, fs)) ∧
    (∀ res, nativeToolBody exec call fs = .ok res →
      handleNativeTool exec call fs = res) ∧
    ((∃ e, nativeToolBody exec call fs = .error e) ↔
      ((∃ p, call = .read_file p ∧ fs p = none) ∨
       (∃ p s r, call = .search_and_replace p s r ∧ fs p = none))) := by
  refine ⟨?_, ?_, ?_⟩
  · intro e he
    unfold handleNativeTool
    rw [he]
  · intro res hres
    unfold handleNativeTool
    rw [hres]
  · cases call with
    | read_file p =>
      cases hf : fs p with
      | none => simp [nativeToolBody, hf]
      | some d => simp [nativeToolBody, hf]
    | write_file p t app =>
      by_cases ha : app = true <;> simp [nativeToolBody, ha]
    | search_and_replace p s r =>
      cases hf : fs p with
      | none => simp [nativeToolBody, hf]
      | some d =>
        by_cases hi : strIncludes d s = true <;> simp [nativeToolBody, hf, hi]
    | run_terminal_command c =>
      simp [nativeToolBody]

/-- Claim C10 (witness): reading a concrete missing file raises ENOENT in
the body and the handler converts it to the error text, leaving the
filesystem unchanged. -/
theorem handleNativeTool_total_witness :
    handleNativeTool (fun _ => ⟨"", ""⟩) (.read_file "missing") emptyFS
      = ("Error executing " ++ toolName (.read_file "missing") ++ ": "
          ++ enoentMsg "missing", emptyFS) :=
  (handleNativeTool_total (fun _ => ⟨"", ""⟩) (.read_file "missing") emptyFS).1
    (enoentMsg "missing") rfl

/- Injectivity of the decimal temp-file names. -/

theorem digitChar_inj (d e : Nat) (hd : d < 10) (he : e < 10)
    (h : digitChar d = digitChar e) : d = e := by
  unfold digitChar at h
  interval_cases d <;> interval_cases e <;> revert h <;> decide

theorem map_digitChar_inj (a : List Nat) :
    ∀ b, (∀ x ∈ a, x < 10) → (∀ x ∈ b, x < 10) →
      a.map digitChar = b.map digitChar → a = b := by
  induction a with
  | nil =>
    intro b _ _ h
    cases b with
    | nil => rfl
    | cons y ys => simp at h
  | cons x xs ih =>
    intro b ha hb h
    cases b with
    | nil => simp at h
    | cons y ys =>
      simp only [List.map_cons, List.cons.injEq] at h
      have hx : x = y :=
        digitChar_inj x y (ha x (by simp)) (hb y (by simp)) h.1
      have hxs : xs = ys :=
        ih ys (fun z hz => ha z (by simp [hz])) (fun z hz => hb z (by simp [hz])) h.2
      rw [hx, hxs]

theorem natDecChars_inj (n m : Nat) (h : natDecChars n = natDecChars m) : n = m := by
  unfold natDecChars at h
  by_cases hn : n = 0 <;> by_cases hm : m = 0
  · rw [hn, hm]
  · exfalso
    rw [if_pos hn, if_neg hm] at h
    have hmap : (Nat.digits 10 m).map digitChar = ['0'] := by
      have h2 := congrArg List.reverse h
      simpa using h2.symm
    match hd : Nat.digits 10 m with
    | [] =>
      rw [hd] at hmap
      simp at hmap
    | [d] =>
      rw [hd] at hmap
      simp only [List.map_cons, List.map_nil, List.cons.injEq, and_true] at hmap
      have hdlt : d < 10 := Nat.digits_lt_base (by norm_num) (by rw [hd]; simp)
      have hd0 : d = 0 := by
        have : digitChar d = digitChar 0 := by
          rw [hmap]
          decide
        exact digitChar_inj d 0 hdlt (by norm_num) this
      have hm0 : m = Nat.ofDigits 10 [d] := by
        rw [← Nat.ofDigits_digits 10 m, hd]
      rw [hd0] at hm0
      simp [Nat.ofDigits] at hm0
      exact hm hm0
    | d :: e :: rest =>
      rw [hd] at hmap
      have := congrArg List.length hmap
      simp at this
  · exfalso
    rw [if_neg hn, if_pos hm] at h
    have hmap : (Nat.digits 10 n).map digitChar = ['0'] := by
      have h2 := congrArg List.reverse h
      simpa using h2
    match hd : Nat.digits 10 n with
    | [] =>
      rw [hd] at hmap
      simp at hmap
    | [d] =>
      rw [hd] at hmap
      simp only [List.map_cons, List.map_nil, List.cons.injEq, and_true] at hmap
      have hdlt : d < 10 := Nat.digits_lt_base (by norm_num) (by rw [hd]; simp)
      have hd0 : d = 0 := by
        have : digitChar d = digitChar 0 := by
          rw [hmap]
          decide
        exact digitChar_inj d 0 hdlt (by norm_num) this
      have hn0 : n = Nat.ofDigits 10 [d] := by
        rw [← Nat.ofDigits_digits 10 n, hd]
      rw [hd0] at hn0
      simp [Nat.ofDigits] at hn0
      exact hn hn0
    | d :: e :: rest =>
      rw [hd] at hmap
      have := congrArg List.length hmap
      simp at this
  · rw [if_neg hn, if_neg hm] at h
    have h2 := congrArg List.reverse h
    simp only [List.reverse_reverse] at h2
    have hdig : Nat.digits 10 n = Nat.digits 10 m :=
      map_digitChar_inj (Nat.digits 10 n) (Nat.digits 10 m)
        (fun x hx => Nat.digits_lt_base (by norm_num) hx)
        (fun x hx => Nat.digits_lt_base (by norm_num) hx) h2
    have := congrArg (Nat.ofDigits 10) hdig
    simpa [Nat.ofDigits_digits] using this

theorem tempFileName_inj (n m : Nat) (h : tempFileName n = tempFileName m) :
    n = m := by
  unfold tempFileName at h
  have hd := congrArg String.data h
  simp only at hd
  rw [List.append_assoc, List.append_assoc] at hd
  have h1 := List.append_cancel_left hd
  have h2 := List.append_cancel_right h1
  exact natDecChars_inj n m h2

/-- Claim C8 (counterexample): the index.js sandbox refutes the claim as
stated: it configures no timeout at all, its temp file name is the same
for every invocation time, and a timeout-shaped spawn outcome is reported
through the generic captured-output channel (here the empty string), not
a distinct timeout reason. -/
theorem executeSegmentV0_cex :
    executeSegmentV0Opts.timeoutMs = none ∧
    tempFileNameV0 0 = tempFileNameV0 1 ∧
    (executeSegmentV0 (fun _ _ _ => ⟨some "ETIMEDOUT", none, "", ""⟩) 0 "x"
      emptyFS).1 = ⟨true, ""⟩ := by
  decide

/-- Claim C8 (amended): the part_003 sandbox satisfies the claim: the temp
file is absent from the filesystem after every run whatever the spawn
outcome, distinct invocation times give distinct temp file names, spawnSync
is invoked with a 60000 ms timeout, and an ETIMEDOUT outcome is reported
as the distinct timeout message; the index.js sandbox satisfies none of
these (uniquely-named, timeout, distinct reason — see the counterexample). -/
theorem executeSegment_sandbox_spec :
    (∀ spawn now segment fs,
      (executeSegment spawn now segment fs).2 (tempFileName now) = none) ∧
    (∀ now now', now ≠ now' → tempFileName now ≠ tempFileName now') ∧
    executeSegmentOpts.timeoutMs = some 60000 ∧
    (∀ spawn now segment fs,
      (spawn "node" [tempFileName now] executeSegmentOpts).errCode
          = some "ETIMEDOUT" →
      (executeSegment spawn now segment fs).1 = ⟨true, timeoutMsg⟩) := by
  refine ⟨?_, ?_, rfl, ?_⟩
  · intro spawn now segment fs
    unfold executeSegment
    have hup : updateFS fs (tempFileName now) segment (tempFileName now)
        = some segment := updateFS_same fs (tempFileName now) segment
    simp only [hup, Option.isSome_some, if_true]
    by_cases hto : (spawn "node" [tempFileName now] executeSegmentOpts).errCode
        == some "ETIMEDOUT"
    · simp [hto, removeFS]
    · simp only [Bool.not_eq_true] at hto
      simp [hto, removeFS]
  · intro now now' hne h
    exact hne (tempFileName_inj now now' h)
  · intro spawn now segment fs hto
    unfold executeSegment
    simp [hto]

/-- Claim C8 (witness): on concrete inputs, the temp file is gone after a
successful run, the names for times 3 and 4 differ, and a concrete
ETIMEDOUT outcome yields exactly the distinct timeout verdict. -/
theorem executeSegment_sandbox_spec_witness :
    (executeSegment (fun _ _ _ => ⟨none, some 0, "out", ""⟩) 7 "x" emptyFS).2
        (tempFileName 7) = none ∧
    tempFileName 3 ≠ tempFileName 4 ∧
    (executeSegment (fun _ _ _ => ⟨some "ETIMEDOUT", none, "", ""⟩) 7 "x"
      emptyFS).1 = ⟨true, timeoutMsg⟩ :=
  ⟨executeSegment_sandbox_spec.1 (fun _ _ _ => ⟨none, some 0, "out", ""⟩) 7 "x" emptyFS,
   executeSegment_sandbox_spec.2.1 3 4 (by decide),
   executeSegment_sandbox_spec.2.2.2 (fun _ _ _ => ⟨some "ETIMEDOUT", none, "", ""⟩)
     7 "x" emptyFS rfl⟩

end Ralphie
